import Mathlib

/-!
Verification development for the audio-job backend: the job pipeline
(audio_pipeline.py, job_manager.py, app.py) and the MIDI encoder /
advisory-text note extractor (midi_engine.py).

Python numbers are modelled as exact rationals (`Frac`); `int(x)` is
truncation toward zero; fallible Python code (raising) is modelled with
`Option`.
-/

namespace AudioEngineer

/-- An exact (unnormalized) rational: Python numbers are modelled as
exact fractions of integers.  The denominator of every constructed
value is nonzero; no normalization is performed, and `Frac` values are
only ever consumed through `floor`-style observations, never compared
structurally. -/
structure Frac where
  num : Int
  den : Int
deriving DecidableEq, Repr

namespace Frac

/-- The fraction n/1. -/
def ofInt (n : Int) : Frac := ⟨n, 1⟩

/-- Exact addition. -/
def add (a b : Frac) : Frac := ⟨a.num * b.den + b.num * a.den, a.den * b.den⟩

/-- Exact multiplication. -/
def mul (a b : Frac) : Frac := ⟨a.num * b.num, a.den * b.den⟩

/-- Exact division (the divisor is nonzero wherever this is used). -/
def div (a b : Frac) : Frac := ⟨a.num * b.den, a.den * b.num⟩

/-- Negation. -/
def neg (a : Frac) : Frac := ⟨-a.num, a.den⟩

/-- Semantic zero test. -/
def isZero (a : Frac) : Bool := a.num = 0

/-- Semantic negativity test (`q < 0`). -/
def isNeg (a : Frac) : Bool := a.num * a.den < 0

/-- Mathematical floor. -/
def floor (a : Frac) : Int :=
  if a.den < 0 then Int.fdiv (-a.num) (-a.den) else Int.fdiv a.num a.den

/-- Mathematical ceiling. -/
def ceil (a : Frac) : Int := -(a.neg.floor)

end Frac

/-- Python `int(x)` on a float: truncation toward zero. -/
def pyTrunc (q : Frac) : Int := if q.isNeg then q.ceil else q.floor

/-- Python `round(x)`: round half to even (used by `mido.bpm2tempo`). -/
def pyRound (q : Frac) : Int :=
  let n := if q.den < 0 then -q.num else q.num
  let d := if q.den < 0 then -q.den else q.den
  let f := Int.fdiv n d
  let r2 := 2 * (n - f * d)
  if r2 < d then f
  else if d < r2 then f + 1
  else if f % 2 = 0 then f else f + 1

/-- Rounding to the nearest integer, halves up: the reading of
"round(...)" used by the specification text. -/
def specRound (q : Frac) : Int := (q.add ⟨1, 2⟩).floor

/-- Numeric value of a list of decimal digit characters. -/
def digitsVal (cs : List Char) : Nat :=
  cs.foldl (fun a c => a * 10 + (c.toNat - 48)) 0

/-- All characters are decimal digits and the list is nonempty. -/
def allDigits (cs : List Char) : Bool :=
  !cs.isEmpty && cs.all Char.isDigit

/-- Python `int(s)` on a string: optional sign then decimal digits
(surrounding whitespace stripped); anything else raises. -/
def parseIntStr (s : String) : Option Int :=
  let cs := s.trim.data
  match cs with
  | '-' :: rest => if allDigits rest then some (-(digitsVal rest : Int)) else none
  | '+' :: rest => if allDigits rest then some (digitsVal rest : Int) else none
  | _ => if allDigits cs then some (digitsVal cs : Int) else none

/-- Fractional decimal core: digits, optionally with a decimal point,
at least one digit overall; e.g. "12", "12.5", ".5", "12.". -/
def parseDecCore (cs : List Char) : Option Frac :=
  let (ip, rest) := cs.span Char.isDigit
  match rest with
  | [] => if ip.isEmpty then none else some (Frac.ofInt (digitsVal ip : Int))
  | '.' :: fp =>
    if fp.all Char.isDigit ∧ (¬ ip.isEmpty ∨ ¬ fp.isEmpty) then
      some ⟨(digitsVal ip : Int) * ((10 : Int) ^ fp.length) + (digitsVal fp : Int),
        (10 : Int) ^ fp.length⟩
    else none
  | _ => none

/-- Python `float(s)` on a string (decimal forms only). -/
def parseFloatStr (s : String) : Option Frac :=
  let cs := s.trim.data
  match cs with
  | '-' :: rest => (parseDecCore rest).map Frac.neg
  | '+' :: rest => parseDecCore rest
  | _ => parseDecCore cs

/-- JSON values as produced by Python `json.loads`: integers and floats
are distinct Python types, so they are distinct constructors here. -/
inductive JVal where
  | jnull : JVal
  | jbool (b : Bool) : JVal
  | jint (n : Int) : JVal
  | jfloat (q : Frac) : JVal
  | jstr (s : String) : JVal
  | jarr (elems : List JVal) : JVal
  | jobj (fields : List (String × JVal)) : JVal

namespace JVal

/-- Lookup of a key in an object's field list. -/
def lookupField (fields : List (String × JVal)) (k : String) : Option JVal :=
  match fields with
  | [] => none
  | (k', v) :: rest => if k' = k then some v else lookupField rest k

/-- Python `d.get(k, default)`: requires a dict (`AttributeError`
otherwise, modelled as `none`). -/
def dictGet (v : JVal) (k : String) (dflt : JVal) : Option JVal :=
  match v with
  | jobj fields => some ((lookupField fields k).getD dflt)
  | _ => none

/-- Python `int(x)`: bools are 0/1, floats truncate toward zero,
numeric strings parse; anything else raises. -/
def pyInt : JVal → Option Int
  | jbool b => some (if b then 1 else 0)
  | jint n => some n
  | jfloat q => some (pyTrunc q)
  | jstr s => parseIntStr s
  | _ => none

/-- Python `float(x)`. -/
def pyFloat : JVal → Option Frac
  | jbool b => some (Frac.ofInt (if b then 1 else 0))
  | jint n => some (Frac.ofInt n)
  | jfloat q => some q
  | jstr s => parseFloatStr s
  | _ => none

/-- A value usable directly as a number in arithmetic (`60000000 / bpm`):
int, float or bool; anything else is a `TypeError`. -/
def asNumber : JVal → Option Frac
  | jbool b => some (Frac.ofInt (if b then 1 else 0))
  | jint n => some (Frac.ofInt n)
  | jfloat q => some q
  | _ => none

/-- A genuine Python `int` (bools are ints): what `mido`'s integer
checks accept — floats and numeric strings are rejected. -/
def asStrictInt : JVal → Option Int
  | jbool b => some (if b then 1 else 0)
  | jint n => some n
  | _ => none

/-- Python `len(x)` for sized values; others raise `TypeError`. -/
def pyLen : JVal → Option Nat
  | jstr s => some s.length
  | jarr l => some l.length
  | jobj fields => some fields.length
  | _ => none

/-- Python `x[i]` for a nonnegative index: list indexing; string
indexing yields a one-character string; others raise. -/
def pyIndex : JVal → Nat → Option JVal
  | jarr l, i => l.get? i
  | jstr s, i => (s.data.get? i).map (fun c => jstr (String.mk [c]))
  | _, _ => none

/-- Python `for x in v`: lists iterate elements, strings iterate
one-character strings, dicts iterate keys; numbers raise. -/
def pyIter : JVal → Option (List JVal)
  | jarr l => some l
  | jstr s => some (s.data.map (fun c => jstr (String.mk [c])))
  | jobj fields => some (fields.map (fun f => jstr f.1))
  | _ => none

end JVal

/-! ### JSON parsing (Python `json.loads`) -/

/-- JSON whitespace. -/
def jsonWs (c : Char) : Bool := c = ' ' || c = '\t' || c = '\n' || c = '\r'

/-- Skip JSON whitespace. -/
def skipWs (cs : List Char) : List Char := cs.dropWhile jsonWs

/-- Parse a JSON number starting at the given characters; returns the
value (an int if it has no fraction/exponent, a float otherwise) and
the remaining characters. -/
def parseJNum (cs : List Char) : Option (JVal × List Char) :=
  let signed := match cs with
    | '-' :: t => some (true, t)
    | _ => some (false, cs)
  match signed with
  | none => none
  | some (neg, cs1) =>
    let (ip, cs2) := cs1.span Char.isDigit
    if ip.isEmpty then none else
    let ipq : Frac := Frac.ofInt (digitsVal ip : Int)
    let fracStep : Option (Frac × Bool × List Char) := match cs2 with
      | '.' :: cs3 =>
        let (fp, cs4) := cs3.span Char.isDigit
        if fp.isEmpty then none
        else some (⟨(digitsVal ip : Int) * ((10 : Int) ^ fp.length) +
          (digitsVal fp : Int), (10 : Int) ^ fp.length⟩, true, cs4)
      | _ => some (ipq, false, cs2)
    match fracStep with
    | none => none
    | some (q1, isFloat1, cs5) =>
      let expStep : Option (Frac × Bool × List Char) := match cs5 with
        | c :: cs6 =>
          if c = 'e' ∨ c = 'E' then
            let (esign, cs7) := match cs6 with
              | '-' :: t => (true, t)
              | '+' :: t => (false, t)
              | _ => (false, cs6)
            let (ep, cs8) := cs7.span Char.isDigit
            if ep.isEmpty then none
            else
              let k := digitsVal ep
              let q2 := if esign then q1.div (Frac.ofInt ((10 : Int) ^ k))
                else q1.mul (Frac.ofInt ((10 : Int) ^ k))
              some (q2, true, cs8)
          else some (q1, isFloat1, cs5)
        | [] => some (q1, isFloat1, cs5)
      match expStep with
      | none => none
      | some (q, isFloat, rest) =>
        let q' := if neg then q.neg else q
        if isFloat then some (JVal.jfloat q', rest)
        else some (JVal.jint q'.num, rest)

/-- Hexadecimal digit test. -/
def isHexDigitChar (c : Char) : Bool :=
  c.isDigit || ('a' ≤ c && c ≤ 'f') || ('A' ≤ c && c ≤ 'F')

/-- Decode one escaped character after a backslash; for a `u` escape the
following four hex digits encode the character. Returns the decoded
character and the rest. -/
def decodeEscape (cs : List Char) : Option (Char × List Char) :=
  match cs with
  | [] => none
  | e :: r =>
    if e = '"' then some ('"', r)
    else if e = '\\' then some ('\\', r)
    else if e = '/' then some ('/', r)
    else if e = 'n' then some ('\n', r)
    else if e = 't' then some ('\t', r)
    else if e = 'r' then some ('\r', r)
    else if e = 'b' then some ('\x08', r)
    else if e = 'f' then some ('\x0c', r)
    else if e = 'u' then
      match r with
      | h1 :: h2 :: h3 :: h4 :: r2 =>
        if [h1, h2, h3, h4].all isHexDigitChar then
          let hv := fun (c : Char) =>
            if c.isDigit then c.toNat - 48
            else if 'a' ≤ c then c.toNat - 87 else c.toNat - 55
          some (Char.ofNat (((hv h1 * 16 + hv h2) * 16 + hv h3) * 16 + hv h4), r2)
        else none
      | _ => none
    else none

/-- Parse the body of a JSON string (the opening quote already
consumed), up to and including the closing quote. -/
def parseJStr : Nat → List Char → Option (String × List Char)
  | 0, _ => none
  | fuel + 1, cs =>
    match cs with
    | [] => none
    | c :: rest =>
      if c = '"' then some ("", rest)
      else if c = '\\' then
        match decodeEscape rest with
        | none => none
        | some (d, r2) =>
          (parseJStr fuel r2).map (fun p => (String.mk (d :: p.1.data), p.2))
      else (parseJStr fuel rest).map (fun p => (String.mk (c :: p.1.data), p.2))

/-- Replace/insert a key in an object's field list; a repeated key keeps
its first position but takes the last value, as a Python dict does. -/
def insertField (fields : List (String × JVal)) (k : String) (v : JVal) :
    List (String × JVal) :=
  match fields with
  | [] => [(k, v)]
  | (k', v') :: rest =>
    if k' = k then (k, v) :: rest else (k', v') :: insertField rest k v

mutual

/-- Parse one JSON value (leading whitespace allowed). -/
def parseJVal : Nat → List Char → Option (JVal × List Char)
  | 0, _ => none
  | fuel + 1, cs0 =>
    let cs := skipWs cs0
    if ['n', 'u', 'l', 'l'].isPrefixOf cs then some (JVal.jnull, cs.drop 4)
    else if ['t', 'r', 'u', 'e'].isPrefixOf cs then some (JVal.jbool true, cs.drop 4)
    else if ['f', 'a', 'l', 's', 'e'].isPrefixOf cs then some (JVal.jbool false, cs.drop 5)
    else
      match cs with
      | [] => none
      | c :: rest =>
        if c = '"' then (parseJStr fuel rest).map (fun p => (JVal.jstr p.1, p.2))
        else if c = '[' then
          match skipWs rest with
          | ']' :: r2 => some (JVal.jarr [], r2)
          | r1 => parseJElems fuel r1 []
        else if c = Char.ofNat 123 then
          match skipWs rest with
          | r1 =>
            if r1.headD ' ' = Char.ofNat 125 then some (JVal.jobj [], r1.drop 1)
            else parseJMembers fuel r1 []
        else parseJNum cs

/-- Parse the elements of a nonempty JSON array, accumulating parsed
elements, up to and including the closing bracket. -/
def parseJElems : Nat → List Char → List JVal → Option (JVal × List Char)
  | 0, _, _ => none
  | fuel + 1, cs, acc =>
    match parseJVal fuel cs with
    | none => none
    | some (v, r1) =>
      match skipWs r1 with
      | ',' :: r2 => parseJElems fuel r2 (acc ++ [v])
      | ']' :: r2 => some (JVal.jarr (acc ++ [v]), r2)
      | _ => none

/-- Parse the members of a nonempty JSON object, accumulating parsed
fields, up to and including the closing brace. -/
def parseJMembers : Nat → List Char → List (String × JVal) →
    Option (JVal × List Char)
  | 0, _, _ => none
  | fuel + 1, cs, acc =>
    match skipWs cs with
    | [] => none
    | c :: rest =>
      if c = '"' then
        match parseJStr fuel rest with
        | none => none
        | some (k, r1) =>
          match skipWs r1 with
          | ':' :: r2 =>
            match parseJVal fuel r2 with
            | none => none
            | some (v, r3) =>
              match skipWs r3 with
              | ',' :: r4 => parseJMembers fuel r4 (insertField acc k v)
              | r5 =>
                if r5.headD ' ' = Char.ofNat 125 then
                  some (JVal.jobj (insertField acc k v), r5.drop 1)
                else none
          | _ => none
      else none

end

/-- Python `json.loads`: parse a full JSON document; trailing content
other than whitespace is an error. -/
def jsonLoads (s : String) : Option JVal :=
  match parseJVal (2 * s.length + 4) s.data with
  | none => none
  | some (v, rest) => if (skipWs rest).isEmpty then some v else none

/-! ### MIDI encoder (`midi_engine.extract_and_generate_midi`)

The encoder is modelled up to the structured content of the produced
file: a `mido.MidiFile` is a list of tracks, each a list of messages.
Message construction validates its arguments exactly where `mido` does
(raising, i.e. `none`, on out-of-range or wrongly-typed values). -/

/-- One entry of the `events` list built per note (lines 117–130 of
midi_engine.py): an absolute-tick note-on or note-off. -/
structure NEvent where
  isOn : Bool
  note : Int
  velocity : Int
  time : Int
deriving DecidableEq, Repr

/-- The two events the encoder appends for one note object of the
embedded Song data (midi_engine.py lines 106–130): field conversions
with defaults `pitch 60, velocity 100, start_time 0, duration 1.0`,
tick positions by `int(...)` truncation, then a note-on at the start
tick and a note-off (velocity 0) at the end tick. -/
def noteEvents (nv : JVal) : Option (NEvent × NEvent) :=
  match (nv.dictGet "pitch" (.jint 60)).bind JVal.pyInt with
  | none => none
  | some pitch =>
    match (nv.dictGet "velocity" (.jint 100)).bind JVal.pyInt with
    | none => none
    | some vel =>
      match (nv.dictGet "start_time" (.jint 0)).bind JVal.pyFloat with
      | none => none
      | some start =>
        match (nv.dictGet "duration" (.jfloat (Frac.ofInt 1))).bind JVal.pyFloat with
        | none => none
        | some dur =>
          some (⟨true, pitch, vel, pyTrunc (start.mul (Frac.ofInt 480))⟩,
            ⟨false, pitch, 0, pyTrunc ((start.add dur).mul (Frac.ofInt 480))⟩)

/-- A message on a `mido` track, as appended by the encoder; `note`
messages carry their delta time. -/
inductive TrackMsg where
  | setTempo (tempo : Int) : TrackMsg
  | timeSig (num den : Int) : TrackMsg
  | trackName (name : String) : TrackMsg
  | note (isOn : Bool) (note velocity delta : Int) : TrackMsg
  | endOfTrack : TrackMsg
deriving DecidableEq, Repr

/-- A MIDI data byte must be in 0..127 (`mido`'s message check). -/
def checkDataByte (n : Int) : Bool := 0 ≤ n && n ≤ 127

/-- The sort key comparison of midi_engine.py line 133:
ascending `(time, type == "note_on")`, note-offs before note-ons at
equal time. -/
def evLe (a b : NEvent) : Bool :=
  a.time < b.time || (a.time = b.time && (!a.isOn || b.isOn))

/-- The delta-time conversion loop (midi_engine.py lines 136–145):
each sorted event is appended as a `mido.Message` whose time is the
difference to the previous event's absolute time; `mido` validates the
note and velocity bytes at construction. -/
def emitNotes : Int → List NEvent → Option (List TrackMsg)
  | _, [] => some []
  | lastT, e :: es =>
    if checkDataByte e.note && checkDataByte e.velocity then
      (emitNotes e.time es).map
        (fun rest => .note e.isOn e.note e.velocity (e.time - lastT) :: rest)
    else none

/-- Power-of-two test on naturals. -/
def isPow2 (n : Nat) : Bool := n != 0 && n &&& (n - 1) == 0

/-- The meta messages appended only to the first track (midi_engine.py
lines 88–98): a `set_tempo` (value checked to 0..0xFFFFFF by `mido`)
and, only when the `time_signature` value has length at least 2, a
`time_signature` meta whose numerator/denominator must be genuine ints
in `mido`'s accepted ranges (denominator a power of two). -/
def firstTrackMetas (data : JVal) (tempo : Int) : Option (List TrackMsg) :=
  if 0 ≤ tempo ∧ tempo ≤ 16777215 then
    match data.dictGet "time_signature" (.jarr [.jint 4, .jint 4]) with
    | none => none
    | some ts =>
      match ts.pyLen with
      | none => none
      | some n =>
        if 2 ≤ n then
          match (ts.pyIndex 0).bind JVal.asStrictInt,
              (ts.pyIndex 1).bind JVal.asStrictInt with
          | some num, some den =>
            if 0 ≤ num ∧ num ≤ 255 ∧ 1 ≤ den ∧ den.toNat ≤ 2 ^ 255 ∧
                isPow2 den.toNat then
              some [.setTempo tempo, .timeSig num den]
            else none
          | _, _ => none
        else some [.setTempo tempo]
  else none

/-- The per-track message list apart from the first-track metas
(midi_engine.py lines 100–148): the track-name meta (default "Track",
must be a string), the per-note events, the stable sort by the key of
line 133, the delta conversion, and the final end-of-track meta.
Python's `list.sort` is a stable sort, and a stable sort with respect
to a total preorder has a unique result, so the stable
`List.insertionSort` models it exactly. -/
def trackBody (td : JVal) : Option (List TrackMsg) :=
  match (td.dictGet "instrument" (.jstr "Track")).bind
      (fun nameV => match nameV with | .jstr s => some s | _ => none) with
  | none => none
  | some name =>
    match (td.dictGet "notes" (.jarr [])).bind JVal.pyIter with
    | none => none
    | some notes =>
      match notes.mapM noteEvents with
      | none => none
      | some pairs =>
        match emitNotes 0
            (List.insertionSort (fun a b => evLe a b = true)
              ((pairs.map (fun p => [p.1, p.2])).flatten)) with
        | none => none
        | some msgs => some (.trackName name :: (msgs ++ [.endOfTrack]))

/-- The track loop of midi_engine.py lines 83–148, carrying the track
index: the first track additionally receives the tempo/time-signature
metas before its name meta. -/
def buildTracks (data : JVal) (tempo : Int) :
    Nat → List JVal → Option (List (List TrackMsg))
  | _, [] => some []
  | i, td :: rest =>
    match (if i = 0 then firstTrackMetas data tempo else some []) with
    | none => none
    | some metas =>
      match trackBody td with
      | none => none
      | some body =>
        match buildTracks data tempo (i + 1) rest with
        | none => none
        | some more => some ((metas ++ body) :: more)

/-- The whole MIDI construction from parsed Song data (midi_engine.py
lines 72–148): tempo default 120, `mido.bpm2tempo` (exact division and
round-half-even; zero bpm raises), then the track loop. `none` is any
exception escaping to the generic handler; `some` is the saved file's
track content. -/
def buildMidi (data : JVal) : Option (List (List TrackMsg)) :=
  match (data.dictGet "tempo" (.jint 120)).bind JVal.asNumber with
  | none => none
  | some bpm =>
    if bpm.isZero then none
    else
      match (data.dictGet "tracks" (.jarr [])).bind JVal.pyIter with
      | none => none
      | some tracks =>
        buildTracks data (pyRound ((Frac.ofInt 60000000).div bpm)) 0 tracks

/-! ### Advisory-text note extractor -/

/-- The opening marker of an embedded structured-note block. -/
def openTag : List Char := "<MIDI_DATA>".data

/-- The closing marker of an embedded structured-note block. -/
def closeTag : List Char := "</MIDI_DATA>".data

/-- The placeholder `re.sub` substitutes for each block
(midi_engine.py lines 158–163). -/
def placeholder : List Char := "\n🎹 **[MIDI File Generated]**\n".data

/-- First occurrence split: returns the characters before the first
occurrence of `pat` and the characters after it, or `none` when `pat`
does not occur. -/
def findSplit (pat : List Char) : List Char → Option (List Char × List Char)
  | [] => if pat.isEmpty then some ([], []) else none
  | c :: rest =>
    if pat.isPrefixOf (c :: rest) then some ([], (c :: rest).drop pat.length)
    else
      match findSplit pat rest with
      | none => none
      | some (b, a) => some (c :: b, a)

/-- The first regex match of midi_engine.py line 61: content of the
first `<MIDI_DATA>...</MIDI_DATA>` block (non-greedy, DOTALL). -/
def firstBlockContent (s : String) : Option String :=
  match findSplit openTag s.data with
  | none => none
  | some (_, afterOpen) =>
    match findSplit closeTag afterOpen with
    | none => none
    | some (content, _) => some (String.mk content)

/-- Python `str.strip()`. -/
def pyStrip (s : String) : String :=
  String.mk (((s.data.dropWhile Char.isWhitespace).reverse.dropWhile
    Char.isWhitespace).reverse)

/-- The `re.sub` of midi_engine.py lines 158–163: every non-overlapping
`<MIDI_DATA>...</MIDI_DATA>` block (non-greedy) is replaced by the
placeholder.  Fuel-based scanning; the fuel is bounded below by the
input length at the top entry. -/
def replaceBlocksAux : Nat → List Char → List Char
  | 0, cs => cs
  | fuel + 1, cs =>
    match findSplit openTag cs with
    | none => cs
    | some (before, afterOpen) =>
      match findSplit closeTag afterOpen with
      | none => cs
      | some (_, afterClose) =>
        before ++ placeholder ++ replaceBlocksAux fuel afterClose

/-- Replace every block in a string by the placeholder. -/
def replaceBlocks (s : String) : String :=
  String.mk (replaceBlocksAux (s.length + 1) s.data)

/-- midi_engine.extract_and_generate_midi (lines 45–170): find the
first block; parse it as JSON; build the MIDI file; on success return
the text with every block replaced plus the file's content, and on any
failure (no block, JSON parse error, or any exception while building)
return the original text and no file. -/
def extract_and_generate_midi (responseText : String) :
    String × Option (List (List TrackMsg)) :=
  match firstBlockContent responseText with
  | none => (responseText, none)
  | some content =>
    match jsonLoads (pyStrip content) with
    | none => (responseText, none)
    | some data =>
      match buildMidi data with
      | none => (responseText, none)
      | some mid => (replaceBlocks responseText, some mid)

/-! ### Job pipeline (audio_pipeline.py, job_manager.py, app.py)

The collaborator calls (Demucs separation, the three splitting
functions of audio_processor.py, per-stem transcription) are external
effects; a `PipeEnv` fixes their outcomes for one job: `none` means the
call raises, `some files` means it succeeds writing those files.  The
pipeline itself (`start_processing_pipeline`) is translated from
audio_pipeline.py lines 69–144 and produces the ordered list of
`update_status` writes the job performs. -/

/-- The job's directory content relevant to `update_status`; the
artifact lists are the listings of `stems/` and `midi/`. -/
structure FS where
  stems : List String
  midi : List String
deriving DecidableEq, Repr

/-- One persisted `status.json` record (audio_pipeline.py lines 43–58);
`updated_at` (wall clock) is not modelled. -/
structure StatusRec where
  state : String
  progress : Int
  message : String
  error : Option String
  stems : List String
  midi : List String
deriving DecidableEq, Repr

/-- `AudioJobPipeline.update_status`: the record written, with the
artifact lists recomputed from the directories at write time. -/
def update_status (state : String) (progress : Int) (message : String)
    (error : Option String) (fs : FS) : StatusRec :=
  ⟨state, progress, message, error, fs.stems, fs.midi⟩

/-- The record written by `initialize_job` (audio_pipeline.py line 40):
state "initialized", progress 0, empty directories. -/
def initialJobStatus : StatusRec := update_status "initialized" 0 "" none ⟨[], []⟩

/-- The record written by the outer exception handler
(audio_pipeline.py line 144): note `progress` is not passed, so it
takes the default 0. -/
def failStatus (fs : FS) : StatusRec :=
  update_status "failed" 0 "An error occurred during processing." (some "error") fs

/-- Outcomes of the external collaborator calls for one job. -/
structure PipeEnv where
  sepResult : Option (List String)
  vocalsSplit : Option (List String)
  drumsSplit : Option (List String)
  otherSplit : Option (List String)
  transcribeOk : String → Bool

/-- The stem-to-MIDI mapping of audio_pipeline.py lines 116–123, in
dict insertion order. -/
def midi_map : List (String × String) :=
  [("vocals_lead.wav", "melody_lead.mid"),
   ("bass.wav", "bass.mid"),
   ("guitars.wav", "guitars.mid"),
   ("keys_synth.wav", "keys_synth.mid"),
   ("harmony.wav", "harmony.mid"),
   ("snare.wav", "drums_notes.mid")]

/-- One refinement step (audio_pipeline.py lines 94–110): if the coarse
stem exists, run the split (writing its outputs into `stems/`), then
delete the coarse stem; a missing coarse stem is skipped. `none` is a
raising split call, which aborts the job. -/
def refineStep (coarse : String) (split : Option (List String)) (fs : FS) :
    Option FS :=
  if coarse ∈ fs.stems then
    match split with
    | none => none
    | some outs => some { fs with stems := (fs.stems ++ outs).erase coarse }
  else some fs

/-- The refinement stage: vocals, drums, other in order. -/
def refineAll (env : PipeEnv) (fs : FS) : Option FS :=
  match refineStep "vocals.wav" env.vocalsSplit fs with
  | none => none
  | some fs2 =>
    match refineStep "drums.wav" env.drumsSplit fs2 with
    | none => none
    | some fs3 => refineStep "other.wav" env.otherSplit fs3

/-- The transcription loop (audio_pipeline.py lines 125–137): per
mapped stem that exists, an `update_status` at progress
`60 + int((i/len(midi_map))*30)`, then the transcription call whose
failure is caught and skipped (no job failure); success writes the
mapped MIDI file. Returns the updates written and the final directory
state. -/
def midiLoop (tr : String → Bool) :
    Nat → FS → List (String × String) → List StatusRec × FS
  | _, fs, [] => ([], fs)
  | i, fs, (stem, midiName) :: rest =>
    if stem ∈ fs.stems then
      let u := update_status "processing_midi"
        (60 + pyTrunc (((Frac.ofInt (i : Int)).div
          (Frac.ofInt (midi_map.length : Int))).mul (Frac.ofInt 30)))
        ("Extracting MIDI: " ++ midiName ++ "...") none fs
      let fs' := if tr stem then { fs with midi := fs.midi ++ [midiName] } else fs
      let r := midiLoop tr (i + 1) fs' rest
      (u :: r.1, r.2)
    else midiLoop tr (i + 1) fs rest

/-- `start_processing_pipeline` (audio_pipeline.py lines 69–144): the
ordered list of `update_status` writes of one run, for the given
collaborator outcomes.  Any exception in the `try` block produces the
final `failStatus` write. -/
def start_processing_pipeline (env : PipeEnv) : List StatusRec :=
  let fs0 : FS := ⟨[], []⟩
  let u1 := update_status "processing_stems" 10
    "Starting initial stem separation (Demucs)..." none fs0
  match env.sepResult with
  | none => [u1, failStatus fs0]
  | some sepFiles =>
    let fs1 : FS := ⟨sepFiles, []⟩
    let u2 := update_status "processing_stems" 30
      "Refining stems (Vocals, Drums, Instruments)..." none fs1
    match refineStep "vocals.wav" env.vocalsSplit fs1 with
    | none => [u1, u2, failStatus fs1]
    | some fs2 =>
      match refineStep "drums.wav" env.drumsSplit fs2 with
      | none => [u1, u2, failStatus fs2]
      | some fs3 =>
        match refineStep "other.wav" env.otherSplit fs3 with
        | none => [u1, u2, failStatus fs3]
        | some fs4 =>
          let u3 := update_status "processing_midi" 60
            "Extracting structured MIDI data from stems..." none fs4
          let r := midiLoop env.transcribeOk 0 fs4 midi_map
          [u1, u2, u3] ++ r.1 ++
            [update_status "success" 100
              "Processing complete. Deep stems and MIDI artifacts are ready."
              none r.2]

/-- The whole sequence of records persisted for one job run directly
through the orchestrator: the creation record, then the pipeline's
writes. -/
def jobTrace (env : PipeEnv) : List StatusRec :=
  initialJobStatus :: start_processing_pipeline env

/-- The parameter list of `start_processing_pipeline(job_id)`
(audio_pipeline.py line 69). -/
def sppParams : List String := ["job_id"]

/-- The keyword argument names of the call
`background_tasks.add_task(run_heavy_task, start_processing_pipeline,
job_id, separation_model=model)` (app.py line 93), as forwarded by
`run_heavy_task` through `asyncio.to_thread` to
`start_processing_pipeline`. -/
def processCallKwargs : List String := ["separation_model"]

/-- Python call binding: one positional argument per leading parameter,
and every keyword argument must name a remaining parameter; otherwise
the call raises `TypeError` before the callee's body runs. -/
def pyCallBindOk (params : List String) (nPos : Nat) (kwargs : List String) :
    Bool :=
  decide (nPos ≤ params.length) && kwargs.all (fun k => (params.drop nPos).contains k)

/-- The records persisted for one job submitted through
`POST /api/process` (app.py lines 75–95): `initialize_job` writes the
creation record; the queued background call runs the pipeline body only
if the Python call binds — with the extra `separation_model` keyword it
does not, so the `TypeError` is raised inside `run_heavy_task`, outside
the pipeline's `try`, and nothing further is written. -/
def process_audio (env : PipeEnv) : List StatusRec :=
  initialJobStatus ::
    (if pyCallBindOk sppParams 1 processCallKwargs then
      start_processing_pipeline env
    else [])

/-! ### Concurrency gate (job_manager.py)

`run_heavy_task` brackets the heavy body in
`async with _heavy_job_semaphore`.  The gate is modelled as a
transition system over two concurrently submitted tasks: acquiring
consumes a slot and is enabled only when one is available; the body
runs while the task holds the slot; releasing — performed by the
`async with` scope on both the success and the exception path, hence
the outcome flag on the release steps — returns the slot. -/

/-- Where one task stands: before the gate, holding it (its heavy body
is executing), or done. -/
inductive Phase where
  | waiting : Phase
  | holding : Phase
  | finished : Phase
deriving DecidableEq, Repr

/-- The gate plus the two tasks' phases. -/
structure GateState where
  avail : Nat
  p1 : Phase
  p2 : Phase
deriving DecidableEq, Repr

/-- `MAX_CONCURRENT_HEAVY_JOBS` (job_manager.py line 7). -/
def MAX_CONCURRENT_HEAVY_JOBS : Nat := 1

/-- Both tasks submitted, none started, all slots free. -/
def gateInit : GateState := ⟨MAX_CONCURRENT_HEAVY_JOBS, .waiting, .waiting⟩

/-- Interleaved execution steps of the two `run_heavy_task` calls.
`release` carries the body's outcome (success or exception); the slot
is returned in both cases, as `async with` guarantees. -/
inductive GateStep : GateState → GateState → Prop where
  | acquire1 (n : Nat) (p2 : Phase) :
      GateStep ⟨n + 1, .waiting, p2⟩ ⟨n, .holding, p2⟩
  | acquire2 (n : Nat) (p1 : Phase) :
      GateStep ⟨n + 1, p1, .waiting⟩ ⟨n, p1, .holding⟩
  | release1 (ok : Bool) (n : Nat) (p2 : Phase) :
      GateStep ⟨n, .holding, p2⟩ ⟨n + 1, .finished, p2⟩
  | release2 (ok : Bool) (n : Nat) (p1 : Phase) :
      GateStep ⟨n, p1, .holding⟩ ⟨n + 1, p1, .finished⟩

/-- States reachable from the initial state by any interleaving. -/
def GateReachable (s : GateState) : Prop :=
  Relation.ReflTransGen GateStep gateInit s

/-- Slots consumed by a task in the given phase. -/
def phaseSlots : Phase → Nat
  | .holding => 1
  | _ => 0

/-! ### Derived views used by the claim statements -/

/-- Decode the absolute tick of each note message of a track by
accumulating delta times from the given start time; meta messages are
skipped (they are all appended with delta 0). -/
def noteAbsGo : Int → List TrackMsg → List NEvent
  | t, .note isOn n v d :: rest => ⟨isOn, n, v, t + d⟩ :: noteAbsGo (t + d) rest
  | t, _ :: rest => noteAbsGo t rest
  | _, [] => []

/-- The note messages of a track with their absolute ticks. -/
def noteAbsEvents (msgs : List TrackMsg) : List NEvent := noteAbsGo 0 msgs

/-- The time-signature meta events of a track. -/
def timeSigsOf (msgs : List TrackMsg) : List (Int × Int) :=
  msgs.filterMap (fun m => match m with | .timeSig n d => some (n, d) | _ => none)

/-- Note-message test. -/
def isNoteMsg : TrackMsg → Bool
  | .note _ _ _ _ => true
  | _ => false

/-- Absolute ordering the spec's tie-break rule asks for: ascending
tick, and at an equal tick a note-on never comes before a note-off. -/
def nevAbsLe (a b : NEvent) : Prop :=
  a.time < b.time ∨ (a.time = b.time ∧ (a.isOn = true → b.isOn = true))

/-- Non-decreasing progress between two successive records, except into
a `failed` record. -/
def progressStep (a b : StatusRec) : Prop :=
  b.state = "failed" ∨ a.progress ≤ b.progress

/-! ### Helper lemmas -/

theorem fracFloor_ofInt (n : Int) : (Frac.ofInt n).floor = n := by
  simp [Frac.ofInt, Frac.floor, Int.fdiv_one]

theorem pyTrunc_ofInt (n : Int) : pyTrunc (Frac.ofInt n) = n := by
  unfold pyTrunc
  split
  · show -(((Frac.ofInt n).neg).floor) = n
    show -((Frac.ofInt (-n)).floor) = n
    rw [fracFloor_ofInt]
    ring
  · exact fracFloor_ofInt n

theorem loopProgress_eq (i : Nat) :
    pyTrunc (((Frac.ofInt (i : Int)).div
      (Frac.ofInt (midi_map.length : Int))).mul (Frac.ofInt 30)) = 5 * (i : Int) := by
  have hlen : (midi_map.length : Int) = 6 := by norm_num [midi_map]
  rw [hlen]
  have hval : ((Frac.ofInt (i : Int)).div (Frac.ofInt 6)).mul (Frac.ofInt 30) =
      (⟨(i : Int) * 30, 6⟩ : Frac) := by
    simp [Frac.ofInt, Frac.div, Frac.mul]
  rw [hval]
  have hnn : ¬ (Frac.isNeg ⟨(i : Int) * 30, 6⟩ = true) := by
    simp [Frac.isNeg]
  rw [pyTrunc, if_neg hnn]
  show Int.fdiv ((i : Int) * 30) 6 = 5 * (i : Int)
  rw [show (i : Int) * 30 = 6 * (5 * (i : Int)) by ring]
  exact Int.mul_fdiv_cancel_left _ (by norm_num)

/-! ### C9: concurrency gate -/

theorem gate_invariant (s : GateState) (h : GateReachable s) :
    s.avail + phaseSlots s.p1 + phaseSlots s.p2 = MAX_CONCURRENT_HEAVY_JOBS := by
  induction h with
  | refl => rfl
  | tail _ step ih => cases step <;> simp_all [phaseSlots] <;> omega

/-- C9: with the gate limit configured to 1
(`MAX_CONCURRENT_HEAVY_JOBS`), in every state reachable by interleaving
two submitted `run_heavy_task` calls the two heavy bodies are never
executing (holding the gate) simultaneously; the step relation releases
the slot on both the success and the exception outcome of the body. -/
theorem gate_mutual_exclusion (s : GateState) (h : GateReachable s) :
    ¬ (s.p1 = Phase.holding ∧ s.p2 = Phase.holding) := by
  rintro ⟨h1, h2⟩
  have hinv := gate_invariant s h
  rw [h1, h2] at hinv
  simp [phaseSlots, MAX_CONCURRENT_HEAVY_JOBS] at hinv

/-- Witness for C9 at a concrete reachable state: the first task has
acquired the gate and the second is still waiting. -/
theorem gate_mutual_exclusion_witness :
    GateReachable ⟨0, Phase.holding, Phase.waiting⟩ ∧
      ¬ ((Phase.holding = Phase.holding ∧ Phase.waiting = Phase.holding)) := by
  have hr : GateReachable ⟨0, Phase.holding, Phase.waiting⟩ :=
    Relation.ReflTransGen.single (GateStep.acquire1 0 Phase.waiting)
  exact ⟨hr, gate_mutual_exclusion _ hr⟩

/-! ### C2: jobs stuck in a non-terminal state -/

/-- C2 (code bug): for every collaborator behaviour, a job submitted
through `POST /api/process` persists only its creation record: the
`separation_model=model` keyword in app.py line 93 does not bind
against `start_processing_pipeline(job_id)`, so the background worker
raises `TypeError` before the pipeline's `try` block and the job stays
at state "initialized", progress 0 — a non-terminal state — forever,
contradicting the claim that every started job ends Succeeded or
Failed. -/
theorem process_audio_leaves_job_nonterminal (env : PipeEnv) :
    process_audio env = [initialJobStatus] ∧
      initialJobStatus.state = "initialized" ∧
      initialJobStatus.progress = 0 ∧
      initialJobStatus.state ≠ "success" ∧ initialJobStatus.state ≠ "failed" := by
  have hb : pyCallBindOk sppParams 1 processCallKwargs = false := by decide
  refine ⟨?_, rfl, rfl, by decide, by decide⟩
  simp [process_audio, hb]

/-! ### C1: progress monotonicity -/

theorem midiLoop_spec (tr : String → Bool) (entries : List (String × String)) :
    ∀ i fs, i + entries.length ≤ midi_map.length →
      (∀ u ∈ (midiLoop tr i fs entries).1,
        u.state = "processing_midi" ∧
          60 + 5 * (i : Int) ≤ u.progress ∧ u.progress ≤ 85) ∧
      List.Chain' (fun a b => a.progress ≤ b.progress) (midiLoop tr i fs entries).1 := by
  induction entries with
  | nil => intro i fs _; simp [midiLoop]
  | cons e rest ih =>
    intro i fs hlen
    obtain ⟨stem, mname⟩ := e
    have hlen' : (i + 1) + rest.length ≤ midi_map.length := by
      simp only [List.length_cons] at hlen; omega
    have hi5 : (i : Int) ≤ 5 := by
      simp only [List.length_cons, midi_map, List.length] at hlen
      omega
    by_cases hmem : stem ∈ fs.stems
    · have hfs' := ih (i + 1)
        (if tr stem then { fs with midi := fs.midi ++ [mname] } else fs) hlen'
      simp only [midiLoop, if_pos hmem]
      constructor
      · intro u hu
        rcases List.mem_cons.mp hu with hu | hu
        · subst hu
          refine ⟨rfl, ?_, ?_⟩
          · simp only [update_status, loopProgress_eq]
            omega
          · simp only [update_status, loopProgress_eq]
            omega
        · have h := hfs'.1 u hu
          refine ⟨h.1, ?_, h.2.2⟩
          have h2 := h.2.1
          push_cast at h2 ⊢
          omega
      · rw [List.chain'_cons']
        refine ⟨?_, hfs'.2⟩
        intro b hb
        have hbm : b ∈ (midiLoop tr (i + 1)
            (if tr stem then { fs with midi := fs.midi ++ [mname] } else fs) rest).1 :=
          List.mem_of_mem_head? hb
        have h2 := (hfs'.1 b hbm).2.1
        simp only [update_status, loopProgress_eq]
        push_cast at h2 ⊢
        omega
    · simp only [midiLoop, if_neg hmem]
      have h := ih (i + 1) fs hlen'
      refine ⟨?_, h.2⟩
      intro u hu
      obtain ⟨h1, h2, h3⟩ := h.1 u hu
      refine ⟨h1, ?_, h3⟩
      push_cast at h2 ⊢
      omega

/-- The environment of the C1 counterexample: the separation call
raises, everything else is irrelevant. -/
def c1Env : PipeEnv := ⟨none, none, none, none, fun _ => true⟩

/-- C1 counterexample: when separation fails, the job's successive
persisted progress values are 0, 10, 0 — the write made on the
transition to `failed` (audio_pipeline.py line 144 passes no
`progress`, so the default 0 applies) is strictly below the previous
progress 10, refuting monotonic non-decrease over the whole lifetime. -/
theorem progress_resets_on_failure_cex :
    (jobTrace c1Env).map StatusRec.progress = [0, 10, 0] ∧
      ¬ List.Chain' (· ≤ ·) ((jobTrace c1Env).map StatusRec.progress) := by
  refine ⟨rfl, ?_⟩
  intro h
  rw [show (jobTrace c1Env).map StatusRec.progress = [0, 10, 0] from rfl] at h
  simp only [List.chain'_cons, List.chain'_singleton, and_true] at h
  omega

/-- C1 amended: across the successive status writes of a job run
(creation record included), progress never decreases except on the
transition into the `failed` state, and every `failed` record carries
progress 0. -/
theorem progress_monotone_except_failure (env : PipeEnv) :
    List.Chain' progressStep (jobTrace env) ∧
      ∀ r ∈ jobTrace env, r.state = "failed" → r.progress = 0 := by
  have hloop := midiLoop_spec env.transcribeOk midi_map 0
  unfold jobTrace start_processing_pipeline
  rcases hsep : env.sepResult with _ | sepFiles
  · constructor
    · simp [List.chain'_cons, progressStep, update_status, failStatus,
        initialJobStatus]
    · intro r hr
      simp only [List.mem_cons, List.not_mem_nil, or_false] at hr
      rcases hr with h | h | h <;> subst h <;> simp [failStatus,
        update_status, initialJobStatus]
  · rcases hv : refineStep "vocals.wav" env.vocalsSplit ⟨sepFiles, []⟩ with _ | fs2
    · simp only [hv]
      constructor
      · simp [List.chain'_cons, progressStep, update_status, failStatus,
          initialJobStatus]
      · intro r hr
        simp only [List.mem_cons, List.not_mem_nil, or_false] at hr
        rcases hr with h | h | h | h <;> subst h <;> simp [failStatus,
          update_status, initialJobStatus]
    · simp only [hv]
      rcases hd : refineStep "drums.wav" env.drumsSplit fs2 with _ | fs3
      · simp only [hd]
        constructor
        · simp [List.chain'_cons, progressStep, update_status, failStatus,
            initialJobStatus]
        · intro r hr
          simp only [List.mem_cons, List.not_mem_nil, or_false] at hr
          rcases hr with h | h | h | h <;> subst h <;> simp [failStatus,
            update_status, initialJobStatus]
      · simp only [hd]
        rcases ho : refineStep "other.wav" env.otherSplit fs3 with _ | fs4
        · simp only [ho]
          constructor
          · simp [List.chain'_cons, progressStep, update_status, failStatus,
              initialJobStatus]
          · intro r hr
            simp only [List.mem_cons, List.not_mem_nil, or_false] at hr
            rcases hr with h | h | h | h <;> subst h <;> simp [failStatus,
              update_status, initialJobStatus]
        · simp only [ho]
          have hl := hloop fs4 (by simp)
          constructor
          · have hshape :
                initialJobStatus ::
                  ([update_status "processing_stems" 10
                      "Starting initial stem separation (Demucs)..." none ⟨[], []⟩,
                    update_status "processing_stems" 30
                      "Refining stems (Vocals, Drums, Instruments)..." none
                      ⟨sepFiles, []⟩,
                    update_status "processing_midi" 60
                      "Extracting structured MIDI data from stems..." none fs4] ++
                    (midiLoop env.transcribeOk 0 fs4 midi_map).1 ++
                    [update_status "success" 100
                      "Processing complete. Deep stems and MIDI artifacts are ready."
                      none (midiLoop env.transcribeOk 0 fs4 midi_map).2]) =
                ([initialJobStatus,
                  update_status "processing_stems" 10
                    "Starting initial stem separation (Demucs)..." none ⟨[], []⟩,
                  update_status "processing_stems" 30
                    "Refining stems (Vocals, Drums, Instruments)..." none
                    ⟨sepFiles, []⟩,
                  update_status "processing_midi" 60
                    "Extracting structured MIDI data from stems..." none fs4] ++
                  (midiLoop env.transcribeOk 0 fs4 midi_map).1) ++
                  [update_status "success" 100
                    "Processing complete. Deep stems and MIDI artifacts are ready."
                    none (midiLoop env.transcribeOk 0 fs4 midi_map).2] := by
              simp
            rw [hshape]
            apply List.Chain'.append
            · apply List.Chain'.append
              · simp [List.chain'_cons, progressStep, update_status,
                  initialJobStatus]
              · exact List.Chain'.imp (fun a b h => Or.inr h) hl.2
              · intro x hx y hy
                have hym : y ∈ (midiLoop env.transcribeOk 0 fs4 midi_map).1 :=
                  List.mem_of_mem_head? hy
                have hgl : update_status "processing_midi" 60
                    "Extracting structured MIDI data from stems..." none fs4 = x := by
                  simpa using hx
                have := (hl.1 y hym).2.1
                right
                rw [← hgl]
                simp only [update_status]
                omega
            · simp [List.chain'_cons]
            · intro x hx y hy
              have hyv : update_status "success" 100
                  "Processing complete. Deep stems and MIDI artifacts are ready."
                  none (midiLoop env.transcribeOk 0 fs4 midi_map).2 = y := by
                simpa using hy
              have hxm : x ∈ ([initialJobStatus,
                  update_status "processing_stems" 10
                    "Starting initial stem separation (Demucs)..." none ⟨[], []⟩,
                  update_status "processing_stems" 30
                    "Refining stems (Vocals, Drums, Instruments)..." none
                    ⟨sepFiles, []⟩,
                  update_status "processing_midi" 60
                    "Extracting structured MIDI data from stems..." none fs4] ++
                  (midiLoop env.transcribeOk 0 fs4 midi_map).1) := by
                cases hgl : List.getLast? (([initialJobStatus,
                    update_status "processing_stems" 10
                      "Starting initial stem separation (Demucs)..." none ⟨[], []⟩,
                    update_status "processing_stems" 30
                      "Refining stems (Vocals, Drums, Instruments)..." none
                      ⟨sepFiles, []⟩,
                    update_status "processing_midi" 60
                      "Extracting structured MIDI data from stems..." none fs4] ++
                    (midiLoop env.transcribeOk 0 fs4 midi_map).1)) with
                | none =>
                  rw [hgl] at hx
                  exact absurd hx (by simp)
                | some a =>
                  rw [hgl] at hx
                  simp only [Option.mem_def, Option.some.injEq] at hx
                  subst hx
                  exact List.mem_of_getLast?_eq_some hgl
              have hxb : x.progress ≤ 100 := by
                simp only [List.mem_append, List.mem_cons,
                  List.not_mem_nil, or_false] at hxm
                rcases hxm with (h | h | h | h) | h
                · subst h; simp [initialJobStatus, update_status]
                · subst h; simp [update_status]
                · subst h; simp [update_status]
                · subst h; simp [update_status]
                · have := (hl.1 x h).2.2; omega
              right
              rw [← hyv]
              simpa [update_status] using hxb
          · intro r hr
            simp only [List.mem_cons, List.mem_append, List.mem_singleton,
              List.not_mem_nil, or_false] at hr
            rcases hr with h | (((h | h | h) | h) | h)
            · subst h; simp [initialJobStatus, update_status]
            · subst h; simp [update_status]
            · subst h; simp [update_status]
            · subst h; simp [update_status]
            · intro hst
              exact absurd ((hl.1 r h).1.symm.trans hst) (by decide)
            · subst h; simp [update_status]

/-! ### C7: per-item transcription failure tolerance -/

theorem midiLoop_fs (tr : String → Bool) (entries : List (String × String)) :
    ∀ i fs, (midiLoop tr i fs entries).2.stems = fs.stems ∧
      (midiLoop tr i fs entries).2.midi =
        fs.midi ++
          ((entries.filter (fun e => decide (e.1 ∈ fs.stems) && tr e.1)).map
            Prod.snd) := by
  induction entries with
  | nil => intro i fs; simp [midiLoop]
  | cons e rest ih =>
    intro i fs
    obtain ⟨stem, mname⟩ := e
    by_cases hmem : stem ∈ fs.stems
    · simp only [midiLoop, if_pos hmem]
      by_cases htr : tr stem
      · have h := ih (i + 1) { fs with midi := fs.midi ++ [mname] }
        rw [if_pos htr]
        refine ⟨h.1, ?_⟩
        rw [h.2]
        simp [List.filter_cons, hmem, htr]
      · have h := ih (i + 1) fs
        rw [if_neg htr]
        refine ⟨h.1, ?_⟩
        rw [h.2]
        simp [List.filter_cons, hmem, htr]
    · simp only [midiLoop, if_neg hmem]
      have h := ih (i + 1) fs
      refine ⟨h.1, ?_⟩
      rw [h.2]
      simp [List.filter_cons, hmem]

theorem refineStep_midi (c : String) (sp : Option (List String)) (fs fs' : FS)
    (h : refineStep c sp fs = some fs') : fs'.midi = fs.midi := by
  unfold refineStep at h
  by_cases hc : c ∈ fs.stems
  · rw [if_pos hc] at h
    cases sp with
    | none => cases h
    | some outs =>
      simp only [Option.some.injEq] at h
      rw [← h]
  · rw [if_neg hc] at h
    simp only [Option.some.injEq] at h
    rw [← h]

/-- C7: when separation and refinement succeed and exactly one mapped
stem's transcription raises while the others succeed, the job still
ends with a "success" record at progress 100, no "failed" record is
ever written, and the recorded MIDI artifacts are those of the
remaining (existing, non-failing) mapped stems. -/
theorem transcription_failure_tolerated (env : PipeEnv) (l : List String)
    (fs4 : FS) (bad : String)
    (hsep : env.sepResult = some l)
    (href : refineAll env ⟨l, []⟩ = some fs4)
    (hbad : bad ∈ midi_map.map Prod.fst)
    (hbadFails : env.transcribeOk bad = false)
    (hothers : ∀ st ∈ midi_map.map Prod.fst, st ≠ bad →
      env.transcribeOk st = true) :
    (jobTrace env).getLast?.map StatusRec.state = some "success" ∧
      (jobTrace env).getLast?.map StatusRec.progress = some 100 ∧
      (jobTrace env).getLast?.map StatusRec.midi =
        some ((midi_map.filter
          (fun e => decide (e.1 ∈ fs4.stems) && decide (e.1 ≠ bad))).map
            Prod.snd) ∧
      ∀ r ∈ jobTrace env, r.state ≠ "failed" := by
  have hloop := midiLoop_spec env.transcribeOk midi_map 0 fs4 (by simp)
  have hfs := midiLoop_fs env.transcribeOk midi_map 0 fs4
  rcases h1 : refineStep "vocals.wav" env.vocalsSplit ⟨l, []⟩ with _ | fs2
  · simp only [refineAll.eq_def, h1] at href
    cases href
  rcases h2 : refineStep "drums.wav" env.drumsSplit fs2 with _ | fs3
  · simp only [refineAll.eq_def, h1, h2] at href
    cases href
  rcases h3 : refineStep "other.wav" env.otherSplit fs3 with _ | fs4'
  · simp only [refineAll.eq_def, h1, h2, h3] at href
    cases href
  have hfs4 : fs4' = fs4 := by
    simp only [refineAll.eq_def, h1, h2, h3, Option.some.injEq] at href
    exact href
  subst fs4'
  have hm4 : fs4.midi = [] := by
    rw [refineStep_midi _ _ _ _ h3, refineStep_midi _ _ _ _ h2,
      refineStep_midi _ _ _ _ h1]
  have hmidi : (midiLoop env.transcribeOk 0 fs4 midi_map).2.midi =
      (midi_map.filter
        (fun e => decide (e.1 ∈ fs4.stems) && decide (e.1 ≠ bad))).map
          Prod.snd := by
    rw [hfs.2, hm4]
    simp only [List.nil_append]
    congr 1
    apply List.filter_congr
    intro e he
    by_cases hbe : e.1 = bad
    · rw [hbe, hbadFails]
      simp
    · rw [hothers e.1 (List.mem_map_of_mem Prod.fst he) hbe]
      simp [hbe]
  unfold jobTrace start_processing_pipeline
  simp only [hsep, h1, h2, h3]
  have hshape2 :
      initialJobStatus ::
        ([update_status "processing_stems" 10
            "Starting initial stem separation (Demucs)..." none ⟨[], []⟩,
          update_status "processing_stems" 30
            "Refining stems (Vocals, Drums, Instruments)..." none ⟨l, []⟩,
          update_status "processing_midi" 60
            "Extracting structured MIDI data from stems..." none fs4] ++
          (midiLoop env.transcribeOk 0 fs4 midi_map).1 ++
          [update_status "success" 100
            "Processing complete. Deep stems and MIDI artifacts are ready."
            none (midiLoop env.transcribeOk 0 fs4 midi_map).2]) =
      (initialJobStatus ::
        ([update_status "processing_stems" 10
            "Starting initial stem separation (Demucs)..." none ⟨[], []⟩,
          update_status "processing_stems" 30
            "Refining stems (Vocals, Drums, Instruments)..." none ⟨l, []⟩,
          update_status "processing_midi" 60
            "Extracting structured MIDI data from stems..." none fs4] ++
          (midiLoop env.transcribeOk 0 fs4 midi_map).1)) ++
        [update_status "success" 100
          "Processing complete. Deep stems and MIDI artifacts are ready."
          none (midiLoop env.transcribeOk 0 fs4 midi_map).2] := by
    simp
  rw [hshape2, List.getLast?_concat]
  refine ⟨rfl, rfl, ?_, ?_⟩
  · simpa [update_status] using hmidi
  · intro r hr
    simp only [List.mem_append, List.mem_cons, List.not_mem_nil, or_false,
      List.mem_singleton] at hr
    rcases hr with (h | (h | h | h) | h) | h
    · subst h; simp [initialJobStatus, update_status]
    · subst h; simp [update_status]
    · subst h; simp [update_status]
    · subst h; simp [update_status]
    · intro hst
      exact absurd ((hloop.1 r h).1.symm.trans hst) (by decide)
    · subst h; simp [update_status]

/-- A concrete C7 job: separation yields the four Demucs stems, the
splits succeed with their usual outputs, and only the transcription of
"guitars.wav" raises. -/
def c7Env : PipeEnv :=
  ⟨some ["vocals.wav", "drums.wav", "bass.wav", "other.wav"],
   some ["vocals_lead.wav", "vocals_backing.wav"],
   some ["kick.wav", "snare.wav", "hats.wav"],
   some ["harmony.wav", "guitars.wav", "keys_synth.wav"],
   fun s => s != "guitars.wav"⟩

/-- The refined stem directory of the C7 witness job. -/
def c7FS : FS :=
  ⟨["bass.wav", "vocals_lead.wav", "vocals_backing.wav", "kick.wav",
    "snare.wav", "hats.wav", "harmony.wav", "guitars.wav", "keys_synth.wav"],
   []⟩

/-- Witness for C7: the concrete job with six mapped stems present and
one failing transcription ends in "success" at progress 100 with the
five remaining MIDI artifacts. -/
theorem transcription_failure_tolerated_witness :
    (jobTrace c7Env).getLast?.map StatusRec.state = some "success" ∧
      (jobTrace c7Env).getLast?.map StatusRec.progress = some 100 ∧
      (jobTrace c7Env).getLast?.map StatusRec.midi =
        some ((midi_map.filter
          (fun e => decide (e.1 ∈ c7FS.stems) &&
            decide (e.1 ≠ "guitars.wav"))).map Prod.snd) ∧
      ∀ r ∈ jobTrace c7Env, r.state ≠ "failed" :=
  transcription_failure_tolerated c7Env
    ["vocals.wav", "drums.wav", "bass.wav", "other.wav"] c7FS "guitars.wav"
    rfl (by decide) (by decide) rfl (by decide)

/-! ### C6: extractor returns the input unchanged on failure -/

/-- C6: whenever the input text has no complete marker pair, or its
first block's content fails JSON parsing, or the parsed data raises
while building the MIDI file (fails to be a structured Song), the
extractor returns the original text unchanged and no file. -/
theorem extractor_failure_returns_input (text : String)
    (h : firstBlockContent text = none ∨
      ∀ c, firstBlockContent text = some c →
        (jsonLoads (pyStrip c) = none ∨
          ∀ data, jsonLoads (pyStrip c) = some data → buildMidi data = none)) :
    extract_and_generate_midi text = (text, none) := by
  rcases hfb : firstBlockContent text with _ | c
  · simp only [extract_and_generate_midi, hfb]
  · rcases h with h | h
    · rw [hfb] at h; cases h
    · rcases hj : jsonLoads (pyStrip c) with _ | data
      · simp only [extract_and_generate_midi, hfb, hj]
      · rcases h c hfb with h2 | h2
        · rw [hj] at h2; cases h2
        · simp only [extract_and_generate_midi, hfb, hj, h2 data hj]

/-- Witness for C6 at a concrete input with no marker pair. -/
theorem extractor_failure_returns_input_witness :
    extract_and_generate_midi "hello world" = ("hello world", none) :=
  extractor_failure_returns_input "hello world" (Or.inl (by decide))

/-! ### C4: note-field defaults vs. malformed fields -/

/-- The embedded Song data of the C4 counterexample: one note whose
`pitch` is present but non-numeric (a list). -/
def c4noteData : JVal :=
  JVal.jobj [("tracks", JVal.jarr [JVal.jobj
    [("notes", JVal.jarr [JVal.jobj [("pitch", JVal.jarr [])]])]])]

/-- The C4 counterexample advisory text, carrying the same data in an
embedded block. -/
def c4text : String :=
  "x<MIDI_DATA>\x7b\"tracks\":[\x7b\"notes\":[\x7b\"pitch\":[]\x7d]\x7d]\x7d</MIDI_DATA>y"

set_option maxRecDepth 4000 in
/-- C4 counterexample: a note whose `pitch` field is present but
non-numeric does not fall back to the default — `int([])` raises, the
generic handler swallows the exception, no MIDI file is produced and
the text comes back unchanged, refuting "substitutes the documented
defaults and still produces the MIDI file" for malformed fields. -/
theorem malformed_note_field_aborts_cex :
    noteEvents (JVal.jobj [("pitch", JVal.jarr [])]) = none ∧
      buildMidi c4noteData = none ∧
      extract_and_generate_midi c4text = (c4text, none) :=
  ⟨rfl, rfl, rfl⟩

/-- C4 amended: the documented defaults (pitch 60, velocity 100,
start_time 0, duration 1 beat) apply to *missing* fields — a note
object providing none of the four fields encodes as a note-on
(60, velocity 100) at tick 0 and a note-off at tick 480; a present but
non-numeric field instead raises, aborting the whole generation with
no file and the text unchanged (see the counterexample). -/
theorem note_missing_fields_default (fields : List (String × JVal))
    (hp : JVal.lookupField fields "pitch" = none)
    (hv : JVal.lookupField fields "velocity" = none)
    (hs : JVal.lookupField fields "start_time" = none)
    (hd : JVal.lookupField fields "duration" = none) :
    noteEvents (JVal.jobj fields) =
      some (⟨true, 60, 100, 0⟩, ⟨false, 60, 0, 480⟩) := by
  simp only [noteEvents, JVal.dictGet, hp, hv, hs, hd]
  decide

/-- Witness for C4 at the empty note object. -/
theorem note_missing_fields_default_witness :
    noteEvents (JVal.jobj []) =
      some (⟨true, 60, 100, 0⟩, ⟨false, 60, 0, 480⟩) :=
  note_missing_fields_default [] rfl rfl rfl rfl

/-! ### Structure lemmas for the encoder -/

theorem emitNotes_noteMsgs : ∀ (evs : List NEvent) (t : Int)
    (msgs : List TrackMsg), emitNotes t evs = some msgs →
    ∀ m ∈ msgs, isNoteMsg m = true := by
  intro evs
  induction evs with
  | nil =>
    intro t msgs h m hm
    simp only [emitNotes, Option.some.injEq] at h
    subst h
    cases hm
  | cons e rest ih =>
    intro t msgs h m hm
    unfold emitNotes at h
    by_cases hc : checkDataByte e.note && checkDataByte e.velocity
    · rw [if_pos hc] at h
      rcases hr : emitNotes e.time rest with _ | msgs'
      · rw [hr] at h; cases h
      · rw [hr] at h
        simp only [Option.map_some', Option.some.injEq] at h
        subst h
        rcases List.mem_cons.mp hm with hm | hm
        · subst hm; rfl
        · exact ih e.time msgs' hr m hm
    · rw [if_neg hc] at h; cases h

theorem timeSigsOf_noteMsgs (msgs : List TrackMsg)
    (h : ∀ m ∈ msgs, isNoteMsg m = true) : timeSigsOf msgs = [] := by
  induction msgs with
  | nil => rfl
  | cons m rest ih =>
    have hm := h m (List.mem_cons_self m rest)
    have htail := ih (fun x hx => h x (List.mem_cons_of_mem m hx))
    cases m with
    | note isOn n v d => simpa [timeSigsOf] using htail
    | setTempo t => simp [isNoteMsg] at hm
    | timeSig a b => simp [isNoteMsg] at hm
    | trackName s => simp [isNoteMsg] at hm
    | endOfTrack => simp [isNoteMsg] at hm

theorem trackBody_shape (td : JVal) (msgs : List TrackMsg)
    (h : trackBody td = some msgs) :
    ∃ (name : String) (notes : List JVal)
      (pairs : List (NEvent × NEvent)) (emsgs : List TrackMsg),
      (td.dictGet "notes" (JVal.jarr [])).bind JVal.pyIter = some notes ∧
      notes.mapM noteEvents = some pairs ∧
      emitNotes 0 (List.insertionSort (fun a b => evLe a b = true)
          ((pairs.map (fun p => [p.1, p.2])).flatten)) =
        some emsgs ∧
      msgs = TrackMsg.trackName name :: (emsgs ++ [TrackMsg.endOfTrack]) := by
  unfold trackBody at h
  rcases h1 : (td.dictGet "instrument" (JVal.jstr "Track")).bind
      (fun nameV => match nameV with | JVal.jstr s => some s | _ => none)
    with _ | name
  · simp only [h1] at h
    cases h
  · simp only [h1] at h
    rcases h2 : (td.dictGet "notes" (JVal.jarr [])).bind JVal.pyIter
      with _ | notes
    · simp only [h2] at h
      cases h
    · simp only [h2] at h
      rcases h3 : notes.mapM noteEvents with _ | pairs
      · simp only [h3] at h
        cases h
      · simp only [h3] at h
        rcases h4 : emitNotes 0
            (List.insertionSort (fun a b => evLe a b = true)
              ((pairs.map (fun p => [p.1, p.2])).flatten))
          with _ | emsgs
        · simp only [h4] at h
          cases h
        · simp only [h4, Option.some.injEq] at h
          exact ⟨name, notes, pairs, emsgs, rfl, h3, h4, h.symm⟩

theorem trackBody_timeSigs (td : JVal) (msgs : List TrackMsg)
    (h : trackBody td = some msgs) : timeSigsOf msgs = [] := by
  obtain ⟨name, notes, pairs, emsgs, _, _, h4, h5⟩ := trackBody_shape td msgs h
  subst h5
  have hts := timeSigsOf_noteMsgs emsgs (emitNotes_noteMsgs _ _ _ h4)
  simp only [timeSigsOf, List.filterMap_cons, List.filterMap_append] at hts ⊢
  simp [hts]


theorem buildMidi_shape (data : JVal) (mid : List (List TrackMsg))
    (h : buildMidi data = some mid) :
    ∃ (bpm : Frac) (tracks : List JVal),
      (data.dictGet "tempo" (JVal.jint 120)).bind JVal.asNumber = some bpm ∧
      bpm.isZero = false ∧
      (data.dictGet "tracks" (JVal.jarr [])).bind JVal.pyIter = some tracks ∧
      buildTracks data (pyRound ((Frac.ofInt 60000000).div bpm)) 0 tracks =
        some mid := by
  unfold buildMidi at h
  rcases h1 : (data.dictGet "tempo" (JVal.jint 120)).bind JVal.asNumber
    with _ | bpm
  · simp only [h1] at h
    cases h
  · simp only [h1] at h
    by_cases hz : bpm.isZero
    · rw [if_pos hz] at h; cases h
    · rw [if_neg hz] at h
      rcases h2 : (data.dictGet "tracks" (JVal.jarr [])).bind JVal.pyIter
        with _ | tracks
      · simp only [h2] at h
        cases h
      · simp only [h2] at h
        exact ⟨bpm, tracks, rfl, Bool.eq_false_iff.mpr hz, rfl, h⟩

theorem buildTracks_first (data : JVal) (tempo : Int) (tds : List JVal)
    (t : List TrackMsg) (rest : List (List TrackMsg))
    (h : buildTracks data tempo 0 tds = some (t :: rest)) :
    ∃ (metas body : List TrackMsg) (td : JVal),
      firstTrackMetas data tempo = some metas ∧
      trackBody td = some body ∧ t = metas ++ body := by
  cases tds with
  | nil => simp [buildTracks] at h
  | cons td tds' =>
    unfold buildTracks at h
    rw [if_pos rfl] at h
    rcases hm : firstTrackMetas data tempo with _ | metas
    · simp only [hm] at h
      cases h
    · simp only [hm] at h
      rcases hb : trackBody td with _ | body
      · simp only [hb] at h
        cases h
      · simp only [hb] at h
        rcases hr : buildTracks data tempo (0 + 1) tds' with _ | more
        · simp only [hr] at h
          cases h
        · simp only [hr, Option.some.injEq, List.cons.injEq] at h
          exact ⟨metas, body, td, rfl, hb, h.1.symm⟩

/-! ### C5: time-signature meta-event -/

theorem firstTrackMetas_absent (fields : List (String × JVal))
    (tempo : Int) (metas : List TrackMsg)
    (habsent : JVal.lookupField fields "time_signature" = none)
    (h : firstTrackMetas (JVal.jobj fields) tempo = some metas) :
    metas = [TrackMsg.setTempo tempo, TrackMsg.timeSig 4 4] := by
  unfold firstTrackMetas at h
  split at h
  · have hred : JVal.dictGet (JVal.jobj fields) "time_signature"
        (JVal.jarr [JVal.jint 4, JVal.jint 4]) =
        some (JVal.jarr [JVal.jint 4, JVal.jint 4]) := by
      simp [JVal.dictGet, habsent]
    rw [hred] at h
    have h2 : (some [TrackMsg.setTempo tempo, TrackMsg.timeSig 4 4] :
        Option (List TrackMsg)) = some metas := by
      rw [← h]
      rfl
    exact (Option.some.inj h2).symm
  · cases h

/-- The C5 counterexample Song data: a malformed one-element
time-signature pair. -/
def c5data : JVal :=
  JVal.jobj [("time_signature", JVal.jarr [JVal.jint 4]),
    ("tracks", JVal.jarr [JVal.jobj []])]

set_option maxRecDepth 8000 in
/-- C5 counterexample: with `time_signature: [4]` (present but with
fewer than two elements) the file is still produced, but its first
track contains *no* time-signature meta-event at all — neither the
given value nor the documented 4/4 default — refuting "the first track
contains exactly one time-signature meta-event ... 4/4 whenever the
pair is absent or malformed". -/
theorem malformed_time_signature_cex :
    buildMidi c5data = some [[TrackMsg.setTempo 500000,
      TrackMsg.trackName "Track", TrackMsg.endOfTrack]] ∧
    timeSigsOf [TrackMsg.setTempo 500000, TrackMsg.trackName "Track",
      TrackMsg.endOfTrack] = [] :=
  ⟨rfl, rfl⟩

/-- C5 amended: when the input's `time_signature` is absent, the first
track of a successfully encoded Song carries exactly one
time-signature meta-event, 4/4; when the field is present with fewer
than two elements, the first track carries none (see the
counterexample). -/
theorem time_signature_default (fields : List (String × JVal))
    (t : List TrackMsg) (rest : List (List TrackMsg))
    (habsent : JVal.lookupField fields "time_signature" = none)
    (hm : buildMidi (JVal.jobj fields) = some (t :: rest)) :
    timeSigsOf t = [(4, 4)] := by
  obtain ⟨bpm, tracks, h1, h2, h3, h4⟩ := buildMidi_shape _ _ hm
  obtain ⟨metas, body, td, hft, hbody, ht⟩ := buildTracks_first _ _ _ _ _ h4
  subst ht
  rw [firstTrackMetas_absent fields _ metas habsent hft]
  have hb := trackBody_timeSigs td body hbody
  simp only [timeSigsOf, List.filterMap_append, List.filterMap_cons] at hb ⊢
  simp [hb]

/-- Witness for C5 at a concrete Song with no time-signature field. -/
theorem time_signature_default_witness :
    timeSigsOf [TrackMsg.setTempo 500000, TrackMsg.timeSig 4 4,
      TrackMsg.trackName "Track", TrackMsg.endOfTrack] = [(4, 4)] :=
  time_signature_default [("tracks", JVal.jarr [JVal.jobj []])]
    [TrackMsg.setTempo 500000, TrackMsg.timeSig 4 4,
      TrackMsg.trackName "Track", TrackMsg.endOfTrack] [] rfl rfl

/-! ### C8: event ordering within a track -/

theorem evLe_total' (a b : NEvent) : evLe a b = true ∨ evLe b a = true := by
  unfold evLe
  rcases lt_trichotomy a.time b.time with h | h | h
  · left; simp [h]
  · cases ha : a.isOn <;> cases hb : b.isOn <;> simp [h, ha, hb]
  · right; simp [h]

theorem evLe_trans' (a b c : NEvent) (h1 : evLe a b = true)
    (h2 : evLe b c = true) : evLe a c = true := by
  unfold evLe at h1 h2 ⊢
  simp only [Bool.or_eq_true, Bool.and_eq_true, decide_eq_true_eq,
    Bool.not_eq_true'] at h1 h2 ⊢
  rcases h1 with h1 | ⟨h1e, h1b⟩ <;> rcases h2 with h2 | ⟨h2e, h2b⟩
  · exact Or.inl (lt_trans h1 h2)
  · exact Or.inl (h2e ▸ h1)
  · exact Or.inl (h1e ▸ h2)
  · refine Or.inr ⟨h1e.trans h2e, ?_⟩
    rcases h1b with h | h
    · exact Or.inl h
    · rcases h2b with h' | h'
      · rw [h] at h'; cases h'
      · exact Or.inr h'

theorem evLe_implies_nevAbsLe (a b : NEvent) (h : evLe a b = true) :
    nevAbsLe a b := by
  unfold evLe at h
  unfold nevAbsLe
  simp only [Bool.or_eq_true, Bool.and_eq_true, decide_eq_true_eq,
    Bool.not_eq_true'] at h
  rcases h with h | ⟨he, hb⟩
  · exact Or.inl h
  · refine Or.inr ⟨he, ?_⟩
    intro ha
    rcases hb with hb | hb
    · rw [ha] at hb; cases hb
    · exact hb

theorem emitNotes_abs : ∀ (evs : List NEvent) (t : Int)
    (msgs : List TrackMsg), emitNotes t evs = some msgs →
    noteAbsGo t msgs = evs := by
  intro evs
  induction evs with
  | nil =>
    intro t msgs h
    simp only [emitNotes, Option.some.injEq] at h
    subst h
    rfl
  | cons e rest ih =>
    intro t msgs h
    unfold emitNotes at h
    by_cases hc : checkDataByte e.note && checkDataByte e.velocity
    · rw [if_pos hc] at h
      rcases hr : emitNotes e.time rest with _ | msgs'
      · rw [hr] at h; cases h
      · rw [hr] at h
        simp only [Option.map_some', Option.some.injEq] at h
        subst h
        show (⟨e.isOn, e.note, e.velocity, t + (e.time - t)⟩ : NEvent) ::
          noteAbsGo (t + (e.time - t)) msgs' = e :: rest
        rw [show t + (e.time - t) = e.time by ring, ih e.time msgs' hr]
    · rw [if_neg hc] at h; cases h

theorem noteAbsGo_eot : ∀ (msgs : List TrackMsg) (t : Int),
    noteAbsGo t (msgs ++ [TrackMsg.endOfTrack]) = noteAbsGo t msgs := by
  intro msgs
  induction msgs with
  | nil => intro t; rfl
  | cons m rest ih =>
    intro t
    cases m <;> simp [noteAbsGo, ih]

theorem noteAbsGo_noNotes : ∀ (metas rest : List TrackMsg) (t : Int),
    (∀ m ∈ metas, isNoteMsg m = false) →
    noteAbsGo t (metas ++ rest) = noteAbsGo t rest := by
  intro metas
  induction metas with
  | nil => intro rest t _; rfl
  | cons m ms ih =>
    intro rest t h
    have hm := h m (List.mem_cons_self m ms)
    have htail := fun x hx => h x (List.mem_cons_of_mem m hx)
    cases m with
    | note isOn n v d => simp [isNoteMsg] at hm
    | setTempo x => simpa [noteAbsGo] using ih rest t htail
    | timeSig a b => simpa [noteAbsGo] using ih rest t htail
    | trackName s => simpa [noteAbsGo] using ih rest t htail
    | endOfTrack => simpa [noteAbsGo] using ih rest t htail

/-- The absolute note events of a whole track body are those of its
delta-converted note messages. -/
theorem noteAbs_bodyShape (name : String) (emsgs : List TrackMsg) :
    noteAbsEvents (TrackMsg.trackName name ::
      (emsgs ++ [TrackMsg.endOfTrack])) = noteAbsGo 0 emsgs := by
  show noteAbsGo 0 (TrackMsg.trackName name ::
    (emsgs ++ [TrackMsg.endOfTrack])) = noteAbsGo 0 emsgs
  simp only [noteAbsGo]
  exact noteAbsGo_eot emsgs 0

theorem firstTrackMetas_noNotes (data : JVal) (tempo : Int)
    (metas : List TrackMsg) (h : firstTrackMetas data tempo = some metas) :
    ∀ m ∈ metas, isNoteMsg m = false := by
  unfold firstTrackMetas at h
  split at h
  · rcases hts : data.dictGet "time_signature"
        (JVal.jarr [JVal.jint 4, JVal.jint 4]) with _ | ts
    · simp only [hts] at h; cases h
    · simp only [hts] at h
      rcases hl : ts.pyLen with _ | n
      · simp only [hl] at h; cases h
      · simp only [hl] at h
        by_cases h2 : 2 ≤ n
        · rw [if_pos h2] at h
          rcases hv0 : (ts.pyIndex 0).bind JVal.asStrictInt with _ | num
          · simp only [hv0] at h; cases h
          · rcases hv1 : (ts.pyIndex 1).bind JVal.asStrictInt with _ | den
            · simp only [hv0, hv1] at h; cases h
            · simp only [hv0, hv1] at h
              split at h
              · simp only [Option.some.injEq] at h
                subst h
                intro m hm
                rcases List.mem_cons.mp hm with hm | hm
                · subst hm; rfl
                · rcases List.mem_cons.mp hm with hm | hm
                  · subst hm; rfl
                  · cases hm
              · cases h
        · rw [if_neg h2] at h
          simp only [Option.some.injEq] at h
          subst h
          intro m hm
          rcases List.mem_cons.mp hm with hm | hm
          · subst hm; rfl
          · cases hm
  · cases h

theorem buildTracks_mem (data : JVal) (tempo : Int) :
    ∀ (i : Nat) (tds : List JVal) (mid : List (List TrackMsg)),
      buildTracks data tempo i tds = some mid →
      ∀ t ∈ mid, ∃ (metas body : List TrackMsg) (td : JVal),
        (∀ m ∈ metas, isNoteMsg m = false) ∧
        trackBody td = some body ∧ t = metas ++ body := by
  intro i tds
  induction tds generalizing i with
  | nil =>
    intro mid h t ht
    simp only [buildTracks, Option.some.injEq] at h
    subst h
    cases ht
  | cons td tds' ih =>
    intro mid h t ht
    unfold buildTracks at h
    rcases hmo : (if i = 0 then firstTrackMetas data tempo else some [])
      with _ | metas
    · simp only [hmo] at h; cases h
    · simp only [hmo] at h
      rcases hb : trackBody td with _ | body
      · simp only [hb] at h; cases h
      · simp only [hb] at h
        rcases hr : buildTracks data tempo (i + 1) tds' with _ | more
        · simp only [hr] at h; cases h
        · simp only [hr, Option.some.injEq] at h
          subst h
          rcases List.mem_cons.mp ht with ht | ht
          · subst ht
            refine ⟨metas, body, td, ?_, hb, rfl⟩
            by_cases hi : i = 0
            · rw [if_pos hi] at hmo
              exact firstTrackMetas_noNotes data tempo metas hmo
            · rw [if_neg hi] at hmo
              simp only [Option.some.injEq] at hmo
              subst hmo
              intro m hm
              cases hm
          · exact ih (i + 1) more hr t ht

theorem trackBody_sorted (td : JVal) (msgs : List TrackMsg)
    (h : trackBody td = some msgs) :
    List.Pairwise nevAbsLe (noteAbsEvents msgs) := by
  obtain ⟨name, notes, pairs, emsgs, _, _, h4, h5⟩ := trackBody_shape td msgs h
  subst h5
  rw [noteAbs_bodyShape, emitNotes_abs _ _ _ h4]
  have hsorted : List.Pairwise (fun a b => evLe a b = true)
      (List.insertionSort (fun a b => evLe a b = true)
        ((pairs.map (fun p => [p.1, p.2])).flatten)) := by
    haveI : IsTotal NEvent (fun a b => evLe a b = true) := ⟨evLe_total'⟩
    haveI : IsTrans NEvent (fun a b => evLe a b = true) :=
      ⟨fun a b c => evLe_trans' a b c⟩
    exact List.sorted_insertionSort _ _
  exact hsorted.imp (fun hab => evLe_implies_nevAbsLe _ _ hab)

/-- C8: within every track of a successfully encoded Song, the note
messages (decoded back to absolute ticks) are ordered by non-decreasing
absolute tick, and at an equal tick a note-on never precedes a
note-off: every note-off scheduled at a tick is emitted before any
note-on at that same tick. -/
theorem track_events_sorted (data : JVal) (mid : List (List TrackMsg))
    (hm : buildMidi data = some mid) :
    ∀ t ∈ mid, List.Pairwise nevAbsLe (noteAbsEvents t) := by
  intro t ht
  obtain ⟨bpm, tracks, _, _, _, h4⟩ := buildMidi_shape data mid hm
  obtain ⟨metas, body, td, hnn, hbody, hteq⟩ :=
    buildTracks_mem data _ 0 tracks mid h4 t ht
  subst hteq
  show List.Pairwise nevAbsLe (noteAbsGo 0 (metas ++ body))
  rw [noteAbsGo_noNotes metas body 0 hnn]
  exact trackBody_sorted td body hbody

/-- The C8 witness Song: two notes whose computed ticks collide — the
first note's note-off and the second note's note-on both fall on
tick 480. -/
def c8data : JVal :=
  JVal.jobj [("tracks", JVal.jarr [JVal.jobj [("notes", JVal.jarr
    [JVal.jobj [("pitch", JVal.jint 50), ("start_time", JVal.jint 0),
      ("duration", JVal.jint 1)],
     JVal.jobj [("pitch", JVal.jint 52), ("start_time", JVal.jint 1),
      ("duration", JVal.jint 1)]])]])]

/-- The track c8data encodes to. -/
def c8track : List TrackMsg :=
  [TrackMsg.setTempo 500000, TrackMsg.timeSig 4 4, TrackMsg.trackName "Track",
   TrackMsg.note true 50 100 0, TrackMsg.note false 50 0 480,
   TrackMsg.note true 52 100 0, TrackMsg.note false 52 0 480,
   TrackMsg.endOfTrack]

set_option maxRecDepth 8000 in
/-- Witness for C8 at the concrete colliding-tick Song. -/
theorem track_events_sorted_witness :
    List.Pairwise nevAbsLe (noteAbsEvents c8track) :=
  track_events_sorted c8data [c8track] rfl c8track (List.mem_singleton.mpr rfl)

/-! ### C3: per-note event ticks -/

/-- The C3 counterexample Song: one note with
`start_time = 13/128 = 0.1015625` beats (a dyadic value, exact in
binary floating point) and default duration 1. -/
def c3data : JVal :=
  JVal.jobj [("tracks", JVal.jarr [JVal.jobj [("notes", JVal.jarr
    [JVal.jobj [("start_time", JVal.jfloat ⟨13, 128⟩)]])]])]

set_option maxRecDepth 8000 in
/-- C3 counterexample: `start_time * 480 = 48.75`; the encoder computes
the note-on tick with `int(...)` (truncation), emitting it at absolute
tick 48, while round(48.75) = 49 — so the note-on tick is not
`round(start_time_beats * 480)` as claimed. -/
theorem note_tick_truncates_cex :
    buildMidi c3data = some [[TrackMsg.setTempo 500000, TrackMsg.timeSig 4 4,
      TrackMsg.trackName "Track", TrackMsg.note true 60 100 48,
      TrackMsg.note false 60 0 480, TrackMsg.endOfTrack]] ∧
    noteAbsEvents [TrackMsg.setTempo 500000, TrackMsg.timeSig 4 4,
      TrackMsg.trackName "Track", TrackMsg.note true 60 100 48,
      TrackMsg.note false 60 0 480, TrackMsg.endOfTrack] =
      [⟨true, 60, 100, 48⟩, ⟨false, 60, 0, 528⟩] ∧
    specRound ((⟨13, 128⟩ : Frac).mul (Frac.ofInt 480)) = 49 ∧
    (48 : Int) ≠ 49 :=
  ⟨rfl, rfl, rfl, by decide⟩

/-- C3 amended: for every successfully encoded track, the note
messages decoded back to absolute ticks are, as a multiset, exactly
two timed events per note of the input — the pair produced by
`noteEvents`: a note-on at tick `int(start_time * 480)` (truncation
toward zero, not rounding) and a matching note-off message (type
note-off, velocity 0) at tick `int((start_time + duration) * 480)`. -/
theorem note_events_exact (td : JVal) (msgs : List TrackMsg)
    (notes : List JVal) (pairs : List (NEvent × NEvent))
    (hb : trackBody td = some msgs)
    (hns : (td.dictGet "notes" (JVal.jarr [])).bind JVal.pyIter = some notes)
    (hps : notes.mapM noteEvents = some pairs) :
    List.Perm (noteAbsEvents msgs)
      ((pairs.map (fun p => [p.1, p.2])).flatten) := by
  obtain ⟨name, notes', pairs', emsgs, h2, h3, h4, h5⟩ :=
    trackBody_shape td msgs hb
  rw [hns] at h2
  injection h2 with h2
  subst h2
  rw [hps] at h3
  injection h3 with h3
  subst h3
  subst h5
  rw [noteAbs_bodyShape, emitNotes_abs _ _ _ h4]
  exact List.perm_insertionSort _ _

/-- The C3 witness track data: one note object with every field
defaulted. -/
def c3wtd : JVal := JVal.jobj [("notes", JVal.jarr [JVal.jobj []])]

/-- Witness for C3 at a concrete track: the decoded absolute events
are a permutation of the per-note on/off pairs. -/
theorem note_events_exact_witness :
    List.Perm (noteAbsEvents [TrackMsg.trackName "Track",
        TrackMsg.note true 60 100 0, TrackMsg.note false 60 0 480,
        TrackMsg.endOfTrack])
      (([((⟨true, 60, 100, 0⟩ : NEvent), (⟨false, 60, 0, 480⟩ : NEvent))].map
        (fun p => [p.1, p.2])).flatten) :=
  note_events_exact c3wtd
    [TrackMsg.trackName "Track", TrackMsg.note true 60 100 0,
      TrackMsg.note false 60 0 480, TrackMsg.endOfTrack]
    [JVal.jobj []] [(⟨true, 60, 100, 0⟩, ⟨false, 60, 0, 480⟩)]
    rfl rfl rfl

/-! ### C10: multiple embedded blocks -/

theorem isPrefixOf_cons_neq (pat : List Char) (c : Char) (xs : List Char)
    (hp : pat.head? = some '<') (hc : c ≠ '<') :
    pat.isPrefixOf (c :: xs) = false := by
  cases pat with
  | nil => cases hp
  | cons p ps =>
    injection hp with hp
    subst hp
    have hb : ('<' == c) = false := beq_eq_false_iff_ne.mpr (Ne.symm hc)
    simp [List.isPrefixOf, hb]

theorem findSplit_not_mem (pat : List Char) (l : List Char)
    (hp : pat.head? = some '<') (hl : '<' ∉ l) : findSplit pat l = none := by
  induction l with
  | nil =>
    cases pat with
    | nil => cases hp
    | cons p ps => rfl
  | cons c rest ih =>
    have hc : c ≠ '<' := fun h => hl (h ▸ List.mem_cons_self c rest)
    have htail : '<' ∉ rest := fun h => hl (List.mem_cons_of_mem c h)
    unfold findSplit
    rw [if_neg (by rw [isPrefixOf_cons_neq pat c rest hp hc]; simp)]
    rw [ih htail]

theorem findSplit_append (pat l r : List Char)
    (hp : pat.head? = some '<') (hl : '<' ∉ l) :
    findSplit pat (l ++ pat ++ r) = some (l, r) := by
  induction l with
  | nil =>
    cases pat with
    | nil => cases hp
    | cons p ps =>
      show findSplit (p :: ps) (p :: (ps ++ r)) = some ([], r)
      unfold findSplit
      rw [if_pos ?hpre]
      case hpre =>
        rw [List.isPrefixOf_iff_prefix]
        exact List.prefix_append (p :: ps) r
      rw [show p :: (ps ++ r) = (p :: ps) ++ r from rfl, List.drop_left]
  | cons c cs ih =>
    have hc : c ≠ '<' := fun h => hl (h ▸ List.mem_cons_self c cs)
    have htail : '<' ∉ cs := fun h => hl (List.mem_cons_of_mem c h)
    show findSplit pat (c :: (cs ++ pat ++ r)) = some (c :: cs, r)
    unfold findSplit
    rw [if_neg (by rw [isPrefixOf_cons_neq pat c _ hp hc]; simp)]
    rw [ih htail]

theorem findSplit_shape (pat : List Char) : ∀ (cs b a : List Char),
    findSplit pat cs = some (b, a) → cs = b ++ pat ++ a := by
  intro cs
  induction cs with
  | nil =>
    intro b a h
    unfold findSplit at h
    split at h
    · rename_i hemp
      simp only [Option.some.injEq, Prod.mk.injEq] at h
      obtain ⟨hb, ha⟩ := h
      subst hb
      subst ha
      simp [List.isEmpty_iff.mp hemp]
    · cases h
  | cons c cs ih =>
    intro b a h
    unfold findSplit at h
    by_cases hpre : pat.isPrefixOf (c :: cs)
    · rw [if_pos hpre] at h
      simp only [Option.some.injEq, Prod.mk.injEq] at h
      obtain ⟨hb, ha⟩ := h
      subst hb
      subst ha
      obtain ⟨t, ht⟩ := List.isPrefixOf_iff_prefix.mp hpre
      rw [← ht]
      simp [List.drop_left]
    · rw [if_neg hpre] at h
      rcases hf : findSplit pat cs with _ | ba
      · rw [hf] at h; cases h
      · obtain ⟨b', a'⟩ := ba
        rw [hf] at h
        simp only [Option.some.injEq, Prod.mk.injEq] at h
        obtain ⟨hb, ha⟩ := h
        subst hb
        subst ha
        simp [ih b' a' hf]

theorem replaceBlocksAux_fuel : ∀ (n : Nat) (cs : List Char) (f1 f2 : Nat),
    cs.length ≤ n → cs.length < f1 → cs.length < f2 →
    replaceBlocksAux f1 cs = replaceBlocksAux f2 cs := by
  intro n
  induction n with
  | zero =>
    intro cs f1 f2 hn h1 h2
    have hcs : cs = [] := List.length_eq_zero.mp (Nat.le_zero.mp hn)
    subst hcs
    cases f1 with
    | zero => omega
    | succ f1 =>
      cases f2 with
      | zero => omega
      | succ f2 => rfl
  | succ n ih =>
    intro cs f1 f2 hn h1 h2
    cases f1 with
    | zero => omega
    | succ f1 =>
      cases f2 with
      | zero => omega
      | succ f2 =>
        show replaceBlocksAux (f1 + 1) cs = replaceBlocksAux (f2 + 1) cs
        unfold replaceBlocksAux
        rcases ho : findSplit openTag cs with _ | ⟨before, afterOpen⟩
        · simp only [ho]
        · simp only [ho]
          rcases hc : findSplit closeTag afterOpen with _ | ⟨x, afterClose⟩
          · simp only [hc]
          · simp only [hc]
            have hsh1 := findSplit_shape openTag cs before afterOpen ho
            have hsh2 := findSplit_shape closeTag afterOpen x afterClose hc
            have hlen : afterClose.length + 23 ≤ cs.length := by
              rw [hsh1, hsh2]
              simp [List.length_append, openTag, closeTag]
              omega
            rw [ih afterClose f1 f2 (by omega) (by omega) (by omega)]

theorem replaceBlocksAux_noTag (f : Nat) (d : List Char) (hd : '<' ∉ d) :
    replaceBlocksAux f d = d := by
  cases f with
  | zero => rfl
  | succ f =>
    unfold replaceBlocksAux
    rw [findSplit_not_mem openTag d rfl hd]

theorem replaceBlocksAux_step (f : Nat) (l c1 rest : List Char)
    (hl : '<' ∉ l) (hc1 : '<' ∉ c1) :
    replaceBlocksAux (f + 1) (l ++ openTag ++ (c1 ++ closeTag ++ rest)) =
      l ++ placeholder ++ replaceBlocksAux f rest := by
  conv_lhs => unfold replaceBlocksAux
  simp only [findSplit_append openTag l (c1 ++ closeTag ++ rest) rfl hl,
    findSplit_append closeTag c1 rest rfl hc1]

theorem firstBlockContent_two (a c1 rest : List Char)
    (ha : '<' ∉ a) (hc1 : '<' ∉ c1) :
    firstBlockContent (String.mk (a ++ openTag ++ (c1 ++ closeTag ++ rest))) =
      some (String.mk c1) := by
  unfold firstBlockContent
  simp only [show (String.mk (a ++ openTag ++ (c1 ++ closeTag ++ rest))).data =
    a ++ openTag ++ (c1 ++ closeTag ++ rest) from rfl]
  simp only [findSplit_append openTag a (c1 ++ closeTag ++ rest) rfl ha,
    findSplit_append closeTag c1 rest rfl hc1]

/-- C10: when the text carries two marker blocks (in otherwise
marker-free surroundings) and the first block's content parses and
builds successfully, the extractor encodes only the first block's
content into the produced file, while the returned text has *both*
blocks replaced by the placeholder — the second block's content is
dropped from the output without ever being encoded. -/
theorem second_block_dropped (a c1 b c2 d : List Char) (data : JVal)
    (mid : List (List TrackMsg))
    (ha : '<' ∉ a) (hc1 : '<' ∉ c1) (hbn : '<' ∉ b) (hc2 : '<' ∉ c2)
    (hd : '<' ∉ d)
    (hparse : jsonLoads (pyStrip (String.mk c1)) = some data)
    (hbuild : buildMidi data = some mid) :
    extract_and_generate_midi (String.mk (a ++ openTag ++ (c1 ++ closeTag ++
        (b ++ openTag ++ (c2 ++ closeTag ++ d))))) =
      (String.mk (a ++ placeholder ++ (b ++ placeholder ++ d)), some mid) := by
  have hfb := firstBlockContent_two a c1
    (b ++ openTag ++ (c2 ++ closeTag ++ d)) ha hc1
  have hrb : replaceBlocks (String.mk (a ++ openTag ++ (c1 ++ closeTag ++
      (b ++ openTag ++ (c2 ++ closeTag ++ d))))) =
      String.mk (a ++ placeholder ++ (b ++ placeholder ++ d)) := by
    unfold replaceBlocks
    congr 1
    have hL : (String.mk (a ++ openTag ++ (c1 ++ closeTag ++
        (b ++ openTag ++ (c2 ++ closeTag ++ d))))).length =
        (a ++ openTag ++ (c1 ++ closeTag ++
          (b ++ openTag ++ (c2 ++ closeTag ++ d)))).length := rfl
    rw [hL]
    rw [show (String.mk (a ++ openTag ++ (c1 ++ closeTag ++
      (b ++ openTag ++ (c2 ++ closeTag ++ d))))).data =
      a ++ openTag ++ (c1 ++ closeTag ++
        (b ++ openTag ++ (c2 ++ closeTag ++ d))) from rfl]
    rw [replaceBlocksAux_step _ a c1 _ ha hc1]
    have hlt : (b ++ openTag ++ (c2 ++ closeTag ++ d)).length <
        (a ++ openTag ++ (c1 ++ closeTag ++
          (b ++ openTag ++ (c2 ++ closeTag ++ d)))).length := by
      have ho : openTag.length = 11 := rfl
      have hc : closeTag.length = 12 := rfl
      simp only [List.length_append]
      omega
    rw [replaceBlocksAux_fuel
      ((b ++ openTag ++ (c2 ++ closeTag ++ d)).length)
      (b ++ openTag ++ (c2 ++ closeTag ++ d))
      ((a ++ openTag ++ (c1 ++ closeTag ++
        (b ++ openTag ++ (c2 ++ closeTag ++ d)))).length)
      ((b ++ openTag ++ (c2 ++ closeTag ++ d)).length + 1)
      (le_refl _) hlt (Nat.lt_succ_self _)]
    rw [replaceBlocksAux_step _ b c2 _ hbn hc2]
    rw [replaceBlocksAux_noTag _ d hd]
  unfold extract_and_generate_midi
  simp only [hfb, hparse, hbuild, hrb]

/-- Witness for C10 at concrete two-block text. -/
theorem second_block_dropped_witness :
    extract_and_generate_midi (String.mk ("Use this ".data ++ openTag ++
        ("\x7b\"tracks\":[]\x7d".data ++ closeTag ++
          (" and ".data ++ openTag ++ ("junk".data ++ closeTag ++
            " end".data))))) =
      (String.mk ("Use this ".data ++ placeholder ++
        (" and ".data ++ placeholder ++ " end".data)),
        some ([] : List (List TrackMsg))) :=
  second_block_dropped "Use this ".data "\x7b\"tracks\":[]\x7d".data
    " and ".data "junk".data " end".data
    (JVal.jobj [("tracks", JVal.jarr [])]) []
    (by decide) (by decide) (by decide) (by decide) (by decide) rfl rfl

end AudioEngineer
